import Mathlib

/-!
Verification of the gha-auth library: a shallow embedding of the glob
matcher (matcher.go), the policy engine (policy.go, claims.go) and the
JWKS key cache (jwks.go), with theorems settling the specification
claims about them.
-/

namespace GhaAuth

/-! ### Pattern matcher (matcher.go)

`matchInternal` in Go recurses on suffixes of the pattern and the value.
Every recursive call strictly shortens the pattern, so we embed it with a
fuel argument bounded by the pattern length; `Match` supplies fuel
`pattern.length + 1`, which the recursion can never exhaust. -/

/-- The literal text following a `*` up to the next `/` in the pattern
(Go: `pattern[pi : pi+nextSlash]` via `strings.IndexByte`). -/
def takeUntilSlash : List Char → List Char
  | [] => []
  | c :: cs => if c = '/' then [] else c :: takeUntilSlash cs

/-- The suffix of the value starting at its first `/`, if any
(Go: `value[vi+valueSlash:]` via `strings.IndexByte`). -/
def dropUntilSlash : List Char → Option (List Char)
  | [] => none
  | c :: cs => if c = '/' then some (c :: cs) else dropUntilSlash cs

/-- Go's `for i := vi; i <= len(value); i++ { if match(rest, value[i:]) ... }`:
try the continuation on every suffix of the value, the empty one included. -/
def anyTail (f : List Char → Bool) : List Char → Bool
  | [] => f []
  | c :: vs => f (c :: vs) || anyTail f vs

/-- Go's `for i := vi; i <= searchEnd; i++`: try the continuation on every
suffix of the value up to and including the one starting at the first `/`. -/
def anyTailUpToSlash (f : List Char → Bool) : List Char → Bool
  | [] => f []
  | c :: vs => f (c :: vs) || (if c = '/' then false else anyTailUpToSlash f vs)

/-- matcher.go `matchInternal`, on character lists with explicit fuel. -/
def matchInternal : Nat → List Char → List Char → Bool
  | 0, _, _ => false
  | _ + 1, [], [] => true
  | _ + 1, [], _ :: _ => false
  | fuel + 1, '*' :: '*' :: ps, v =>
    if ps.isEmpty then
      true
    else
      match ps with
      | '/' :: rest => anyTail (matchInternal fuel rest) v
      | _ => anyTail (matchInternal fuel ps) v
  | fuel + 1, '*' :: ps, v =>
    if (takeUntilSlash ps).isEmpty then
      match dropUntilSlash v with
      | some vslash => matchInternal fuel ps vslash
      | none => matchInternal fuel ps []
    else
      anyTailUpToSlash (matchInternal fuel ps) v
  | _ + 1, _ :: _, [] => false
  | fuel + 1, p :: ps, c :: vs => p == c && matchInternal fuel ps vs

/-- matcher.go `Match`. -/
def Match (pattern value : String) : Bool :=
  matchInternal (pattern.toList.length + 1) pattern.toList value.toList

/-- matcher.go `MatchAny`. -/
def MatchAny (patterns : List String) (value : String) : Bool :=
  patterns.any (fun pattern => Match pattern value)

/-! ### Error taxonomy (errors.go) -/

/-- The sentinel error values of errors.go. -/
inductive ErrKind where
  | invalidToken
  | tokenExpired
  | invalidSignature
  | invalidAudience
  | invalidIssuer
  | accessDenied
  | jwksFetch
  | keyNotFound
deriving DecidableEq, Repr

/-- errors.go `ValidationError`: a sentinel category plus a reason string. -/
structure ValidationError where
  err : ErrKind
  reason : String
deriving DecidableEq, Repr

/-- errors.go `PolicyError`: the offending rule's name plus a reason string. -/
structure PolicyError where
  rule : String
  reason : String
deriving DecidableEq, Repr

/-! ### Claims (claims.go)

Only the fields consumed by claims validation and by the policy engine are
embedded; the remaining fields of `GitHubActionsClaims` are carried and
never read by the code under verification. -/

/-- claims.go `GitHubActionsClaims`, restricted to the fields the policy
engine and `Validate` read. -/
structure GitHubActionsClaims where
  issuer : String
  repository : String
  repositoryOwner : String
  repositoryVisibility : String
  ref : String
  refType : String
  workflow : String
  eventName : String
  actor : String
  environment : String
deriving DecidableEq, Repr

/-- claims.go `GitHubActionsClaims.Validate`: `none` models a nil error. -/
def GitHubActionsClaims.Validate (c : GitHubActionsClaims) : Option ValidationError :=
  if c.issuer ≠ "https://token.actions.githubusercontent.com" then
    some ⟨.invalidIssuer, "expected https://token.actions.githubusercontent.com"⟩
  else if c.repository = "" then
    some ⟨.invalidToken, "repository claim is required"⟩
  else if c.repositoryOwner = "" then
    some ⟨.invalidToken, "repository_owner claim is required"⟩
  else if c.ref = "" then
    some ⟨.invalidToken, "ref claim is required"⟩
  else if c.workflow = "" then
    some ⟨.invalidToken, "workflow claim is required"⟩
  else if c.eventName = "" then
    some ⟨.invalidToken, "event_name claim is required"⟩
  else if c.actor = "" then
    some ⟨.invalidToken, "actor claim is required"⟩
  else
    none

/-! ### Policy engine (policy.go) -/

/-- policy.go `Conditions`: per-attribute pattern lists. -/
structure Conditions where
  repository : List String := []
  repositoryOwner : List String := []
  repositoryVisibility : List String := []
  ref : List String := []
  refType : List String := []
  workflow : List String := []
  eventName : List String := []
  actor : List String := []
  environment : List String := []
deriving DecidableEq, Repr

/-- policy.go `Rule`. The `Effect` type is a Go string; `"allow"` and
`"deny"` are `EffectAllow` and `EffectDeny`. -/
structure Rule where
  name : String := ""
  conditions : Conditions
  effect : String
deriving DecidableEq, Repr

/-- policy.go `Policy`. -/
structure Policy where
  rules : List Rule
  defaultDeny : Bool
deriving DecidableEq, Repr

/-- policy.go `EvaluationResult`. -/
structure EvaluationResult where
  allowed : Bool
  matchedRule : String := ""
  reason : String
deriving DecidableEq, Repr

/-- policy.go `Policy.matchesRule`: all specified conditions must match;
Go's `len(xs) > 0` is `!xs.isEmpty`. -/
def matchesRule (rule : Rule) (claims : GitHubActionsClaims) : Bool :=
  let cond := rule.conditions
  if !cond.repository.isEmpty && !MatchAny cond.repository claims.repository then
    false
  else if !cond.repositoryOwner.isEmpty && !MatchAny cond.repositoryOwner claims.repositoryOwner then
    false
  else if !cond.repositoryVisibility.isEmpty
      && !MatchAny cond.repositoryVisibility claims.repositoryVisibility then
    false
  else if !cond.ref.isEmpty && !MatchAny cond.ref claims.ref then
    false
  else if !cond.refType.isEmpty && !MatchAny cond.refType claims.refType then
    false
  else if !cond.workflow.isEmpty && !MatchAny cond.workflow claims.workflow then
    false
  else if !cond.eventName.isEmpty && !MatchAny cond.eventName claims.eventName then
    false
  else if !cond.actor.isEmpty && !MatchAny cond.actor claims.actor then
    false
  else if !cond.environment.isEmpty then
    -- Environment is optional in claims, so empty matches nothing
    if claims.environment = "" then
      false
    else if !MatchAny cond.environment claims.environment then
      false
    else
      true
  else
    true

/-- The rule loop of policy.go `Policy.Evaluate` (lines 88-116): scan the
rules in order; the first match decides; otherwise apply the default. -/
def evalRules (rules : List Rule) (defaultDeny : Bool)
    (claims : GitHubActionsClaims) : EvaluationResult :=
  match rules with
  | rule :: rest =>
    if matchesRule rule claims then
      { allowed := rule.effect == "allow"
        matchedRule := rule.name
        reason := if rule.name == "" then "default" else "rule: " ++ rule.name }
    else
      evalRules rest defaultDeny claims
  | [] =>
    if defaultDeny then
      { allowed := false, reason := "default deny policy" }
    else
      { allowed := true, reason := "default allow (no matching rules)" }

/-- policy.go `Policy.Evaluate`; the Go receiver is a pointer, so `none`
models a nil policy. -/
def Policy.Evaluate : Option Policy → GitHubActionsClaims → EvaluationResult
  | none, _ => { allowed := true, reason := "no policy configured" }
  | some p, claims => evalRules p.rules p.defaultDeny claims

/-- The per-rule loop of policy.go `Policy.Validate` (lines 180-201),
with `i` the running rule index; Go's positional fallback name is
`string(rune(i))`. -/
def validateRules (i : Nat) (rules : List Rule) : Option PolicyError :=
  match rules with
  | [] => none
  | rule :: rest =>
    if rule.effect != "allow" && rule.effect != "deny" then
      some ⟨rule.name, "effect must be 'allow' or 'deny'"⟩
    else if rule.conditions.repository.isEmpty
        && rule.conditions.repositoryOwner.isEmpty
        && rule.conditions.repositoryVisibility.isEmpty
        && rule.conditions.ref.isEmpty
        && rule.conditions.refType.isEmpty
        && rule.conditions.workflow.isEmpty
        && rule.conditions.eventName.isEmpty
        && rule.conditions.actor.isEmpty
        && rule.conditions.environment.isEmpty then
      some ⟨if rule.name = "" then String.mk [Char.ofNat i] else rule.name,
        "rule must have at least one condition"⟩
    else
      validateRules (i + 1) rest

/-- policy.go `Policy.Validate`: `none` models a nil error, and a `none`
policy models a nil receiver. -/
def Policy.Validate : Option Policy → Option PolicyError
  | none => none
  | some p =>
    if p.rules.isEmpty then
      some ⟨"", "policy must have at least one rule"⟩
    else
      validateRules 0 p.rules

/-! ### JWKS key cache (jwks.go)

The fetcher's I/O is embedded by passing the outcome of the single HTTP
round trip (`FetchOutcome`) as an explicit argument, and time as an
explicit `now`. `GetKey` returns its result, the fetcher state after the
call, and the number of refresh fetches the call performed. -/

/-- jwks.go `JWK`: one JSON Web Key record. -/
structure JWK where
  kid : String
  kty : String
  alg : String := ""
  use : String := ""
  n : String
  e : String
deriving DecidableEq, Repr

/-- jwks.go `JWKS`. -/
structure JWKS where
  keys : List JWK
deriving DecidableEq, Repr

/-- `crypto/rsa.PublicKey`: modulus as an unbounded integer, exponent as a
Go `int` (from `big.Int.Int64`, defined only when the value fits). -/
structure PublicKey where
  n : Nat
  e : Int
deriving DecidableEq, Repr

/-- Value of one character in the base64url alphabet. -/
def b64urlVal (c : Char) : Option Nat :=
  if 'A' ≤ c ∧ c ≤ 'Z' then some (c.toNat - 65)
  else if 'a' ≤ c ∧ c ≤ 'z' then some (c.toNat - 97 + 26)
  else if '0' ≤ c ∧ c ≤ '9' then some (c.toNat - 48 + 52)
  else if c = '-' then some 62
  else if c = '_' then some 63
  else none

/-- Go `base64.RawURLEncoding.DecodeString`: unpadded base64url to bytes.
A final quantum of one character is corrupt input; leftover bits of a
2- or 3-character final quantum are discarded (Go's non-strict mode). -/
def b64urlDecode : List Char → Option (List Nat)
  | [] => some []
  | c1 :: c2 :: c3 :: c4 :: rest => do
    let v1 ← b64urlVal c1
    let v2 ← b64urlVal c2
    let v3 ← b64urlVal c3
    let v4 ← b64urlVal c4
    let bytes ← b64urlDecode rest
    pure ([v1 * 4 + v2 / 16, v2 % 16 * 16 + v3 / 4, v3 % 4 * 64 + v4] ++ bytes)
  | [c1, c2] => do
    let v1 ← b64urlVal c1
    let v2 ← b64urlVal c2
    pure [v1 * 4 + v2 / 16]
  | [c1, c2, c3] => do
    let v1 ← b64urlVal c1
    let v2 ← b64urlVal c2
    let v3 ← b64urlVal c3
    pure [v1 * 4 + v2 / 16, v2 % 16 * 16 + v3 / 4]
  | [_] => none

/-- Go `new(big.Int).SetBytes`: big-endian bytes to an unsigned integer. -/
def bytesToNat (bytes : List Nat) : Nat :=
  bytes.foldl (fun acc b => acc * 256 + b) 0

/-- jwks.go `jwkToPublicKey`: `none` models a non-nil error. -/
def jwkToPublicKey (jwk : JWK) : Option PublicKey := do
  let nBytes ← b64urlDecode jwk.n.toList
  let eBytes ← b64urlDecode jwk.e.toList
  pure { n := bytesToNat nBytes, e := (bytesToNat eBytes : Int) }

/-- One iteration of the cache-building loop in jwks.go `refresh`
(lines 119-131): skip non-RSA entries, skip entries that fail to parse,
store the rest under their kid (a later kid overwrites an earlier one). -/
def cacheStep (m : String → Option PublicKey) (jwk : JWK) : String → Option PublicKey :=
  if jwk.kty != "RSA" then
    m
  else
    match jwkToPublicKey jwk with
    | none => m
    | some key => fun kid => if kid = jwk.kid then some key else m kid

/-- The `newCache` map built by jwks.go `refresh` from a fetched key list. -/
def buildCache (keys : List JWK) : String → Option PublicKey :=
  keys.foldl cacheStep (fun _ => none)

/-- jwks.go `JWKSFetcher`: the mutable cache state plus the configured
cache duration (url and HTTP client are external collaborators). -/
structure JWKSFetcher where
  cacheDuration : Nat
  cache : String → Option PublicKey
  cachedAt : Nat

/-- The outcome of the HTTP round trip a refresh performs: request
construction failure, transport failure, or a response with a status code
and a JSON-decoded body. -/
inductive FetchOutcome where
  | reqError (msg : String)
  | doError (msg : String)
  | response (status : Nat) (body : Except String JWKS)

/-- jwks.go `JWKSFetcher.refresh`: on any failure return the wrapped
`ErrJWKSFetch` error and leave the state unchanged; on success replace the
cache wholesale and stamp the refresh time. -/
def refresh (f : JWKSFetcher) (now : Nat) (outcome : FetchOutcome) :
    Option ValidationError × JWKSFetcher :=
  match outcome with
  | .reqError msg => (some ⟨.jwksFetch, msg⟩, f)
  | .doError msg => (some ⟨.jwksFetch, msg⟩, f)
  | .response status body =>
    if status ≠ 200 then
      (some ⟨.jwksFetch, "HTTP " ++ toString status⟩, f)
    else
      match body with
      | .error msg => (some ⟨.jwksFetch, msg⟩, f)
      | .ok jwks => (none, { f with cache := buildCache jwks.keys, cachedAt := now })

/-- The miss path of jwks.go `JWKSFetcher.GetKey` (lines 78-92): one
refresh, then re-check the cache. -/
def getKeyMiss (f : JWKSFetcher) (now : Nat) (outcome : FetchOutcome) (kid : String) :
    Except ValidationError PublicKey × JWKSFetcher × Nat :=
  match refresh f now outcome with
  | (some err, f') => (.error err, f', 1)
  | (none, f') =>
    match f'.cache kid with
    | some key => (.ok key, f', 1)
    | none =>
      (.error ⟨.keyNotFound, "key ID \"" ++ kid ++ "\" not found in JWKS"⟩, f', 1)

/-- jwks.go `JWKSFetcher.GetKey`: serve from the cache when the kid is
present and the cache is fresh, otherwise refresh once and re-check. The
final `Nat` counts the refresh fetches performed by the call. -/
def GetKey (f : JWKSFetcher) (now : Nat) (outcome : FetchOutcome) (kid : String) :
    Except ValidationError PublicKey × JWKSFetcher × Nat :=
  match f.cache kid with
  | some key =>
    if now - f.cachedAt < f.cacheDuration then
      (.ok key, f, 0)
    else
      getKeyMiss f now outcome kid
  | none => getKeyMiss f now outcome kid

/-- The token fields jwks.go `Keyfunc` inspects: whether `token.Method` is
`*jwt.SigningMethodRSA`, the `alg` header, and the `kid` header (`none`
when absent or not a string). -/
structure Token where
  methodIsRSA : Bool
  alg : String
  kidHeader : Option String

/-- jwks.go `JWKSFetcher.Keyfunc`: reject non-RSA signing methods, then
require a string `kid` header, then resolve the key via `GetKey`. -/
def Keyfunc (f : JWKSFetcher) (now : Nat) (outcome : FetchOutcome) (token : Token) :
    Except ValidationError PublicKey × JWKSFetcher × Nat :=
  if !token.methodIsRSA then
    (.error ⟨.invalidSignature, "unexpected signing method: " ++ token.alg⟩, f, 0)
  else
    match token.kidHeader with
    | none => (.error ⟨.invalidToken, "missing kid in token header"⟩, f, 0)
    | some kid => GetKey f now outcome kid

/-! ### Auxiliary definitions for the claims

`specRuleMatches` is modelled from the spec's words (for the refinement
claim about rule matching); the remaining definitions are concrete rules,
claims and fetcher states used as witnesses and counterexamples. -/

/-- The claims record used by the policy tests: all required attributes
set, environment absent. -/
def baseClaims : GitHubActionsClaims where
  issuer := "https://token.actions.githubusercontent.com"
  repository := "myorg/myrepo"
  repositoryOwner := "myorg"
  repositoryVisibility := "private"
  ref := "refs/heads/main"
  refType := "branch"
  workflow := "CI"
  eventName := "push"
  actor := "johndoe"
  environment := ""

def c1DenyRule : Rule where
  name := "deny-first"
  conditions := { repository := ["myorg/*"] }
  effect := "deny"

def c1AllowRule : Rule where
  name := "allow-later"
  conditions := { repository := ["myorg/myrepo"] }
  effect := "allow"

/-- The rule-matching predicate exactly as the spec words it: every active
condition's pattern list contains a pattern matching the corresponding
claim value — AND across the nine condition fields, OR (`MatchAny`) within
each pattern list, with no special treatment of empty claim values. -/
def specRuleMatches (rule : Rule) (c : GitHubActionsClaims) : Bool :=
  (rule.conditions.repository.isEmpty || MatchAny rule.conditions.repository c.repository)
  && (rule.conditions.repositoryOwner.isEmpty
      || MatchAny rule.conditions.repositoryOwner c.repositoryOwner)
  && (rule.conditions.repositoryVisibility.isEmpty
      || MatchAny rule.conditions.repositoryVisibility c.repositoryVisibility)
  && (rule.conditions.ref.isEmpty || MatchAny rule.conditions.ref c.ref)
  && (rule.conditions.refType.isEmpty || MatchAny rule.conditions.refType c.refType)
  && (rule.conditions.workflow.isEmpty || MatchAny rule.conditions.workflow c.workflow)
  && (rule.conditions.eventName.isEmpty || MatchAny rule.conditions.eventName c.eventName)
  && (rule.conditions.actor.isEmpty || MatchAny rule.conditions.actor c.actor)
  && (rule.conditions.environment.isEmpty || MatchAny rule.conditions.environment c.environment)

def c2EnvRule : Rule where
  name := "env-rule"
  conditions := { environment := ["**"] }
  effect := "allow"

def c3RefTypeRule : Rule where
  name := "reftype-rule"
  conditions := { refType := ["*"] }
  effect := "allow"

/-- Claims that pass structural validation while carrying an empty
`ref_type` (claims.go requires neither `ref_type` nor visibility). -/
def c3Claims : GitHubActionsClaims := { baseClaims with refType := "" }

def c9UnnamedRule : Rule where
  name := ""
  conditions := { repository := ["**"] }
  effect := "allow"

/-- The nine-way emptiness test of policy.go `Policy.Validate` lines
186-194: true iff the rule has no active condition. -/
def allCondsEmpty (rule : Rule) : Bool :=
  rule.conditions.repository.isEmpty
  && rule.conditions.repositoryOwner.isEmpty
  && rule.conditions.repositoryVisibility.isEmpty
  && rule.conditions.ref.isEmpty
  && rule.conditions.refType.isEmpty
  && rule.conditions.workflow.isEmpty
  && rule.conditions.eventName.isEmpty
  && rule.conditions.actor.isEmpty
  && rule.conditions.environment.isEmpty

def c8ValidRule : Rule where
  name := "valid"
  conditions := { repository := ["myorg/*"] }
  effect := "allow"

def c8BadEffectRule : Rule where
  name := "bad-effect"
  conditions := { repository := ["myorg/*"] }
  effect := "Allow"

def c4Key : PublicKey := ⟨12345, 65537⟩

def c4Fetcher : JWKSFetcher :=
  ⟨3600, fun kid => if kid = "key-1" then some c4Key else none, 100⟩

/-- Whether the HTTP round trip outcome makes jwks.go `refresh` fail:
request error, transport error, non-200 status, or malformed body. -/
def FetchOutcome.failed : FetchOutcome → Bool
  | .reqError _ => true
  | .doError _ => true
  | .response status body =>
    status != 200 || (match body with | .error _ => true | .ok _ => false)

def c5Fetcher : JWKSFetcher :=
  ⟨5, fun kid => if kid = "kid-1" then some ⟨101, 3⟩ else none, 0⟩

def c6Fetcher : JWKSFetcher := ⟨3600, fun _ => none, 0⟩

/-- What a single JWKS entry contributes to the cache: its parsed key when
its kty is "RSA" and it parses, nothing otherwise. -/
def rsaKeyOf (jwk : JWK) : Option PublicKey :=
  if jwk.kty = "RSA" then jwkToPublicKey jwk else none

/-! ### Theorems -/

theorem dropUntilSlash_none {l : List Char} (h : dropUntilSlash l = none) :
    '/' ∉ l := by
  induction l with
  | nil => simp
  | cons c cs ih =>
    by_cases hc : c = '/'
    · simp [dropUntilSlash, hc] at h
    · simp [dropUntilSlash, hc] at h
      simp only [List.mem_cons]
      rintro (rfl | hm)
      · exact hc rfl
      · exact ih h hm

theorem dropUntilSlash_some {l s : List Char} (h : dropUntilSlash l = some s) :
    (∃ t, s = '/' :: t) ∧ '/' ∈ l := by
  induction l with
  | nil => simp [dropUntilSlash] at h
  | cons c cs ih =>
    by_cases hc : c = '/'
    · subst hc
      simp [dropUntilSlash] at h
      exact ⟨⟨cs, h.symm⟩, by simp⟩
    · simp [dropUntilSlash, hc] at h
      obtain ⟨he, hcont⟩ := ih h
      exact ⟨he, List.mem_cons_of_mem _ hcont⟩

theorem matchInternal_star (l : List Char) :
    matchInternal 2 ['*'] l = true ↔ '/' ∉ l := by
  simp only [matchInternal, takeUntilSlash, List.isEmpty_nil, if_true]
  cases h : dropUntilSlash l with
  | none => simpa using dropUntilSlash_none h
  | some s =>
    obtain ⟨⟨t, rfl⟩, hmem⟩ := dropUntilSlash_some h
    simpa [matchInternal] using hmem

theorem matchInternal_starstar (n : Nat) (l : List Char) :
    matchInternal (n + 1) ['*', '*'] l = true := by
  simp [matchInternal]

/-- C7: `Match "*" v` holds iff `v` has no `/`; `Match "**" v` holds for
every `v`; a `*` between literals cannot cross a `/` while `**` can. -/
theorem c7_wildcard_semantics :
    (∀ v : String, Match "*" v = true ↔ '/' ∉ v.toList)
    ∧ (∀ v : String, Match "**" v = true)
    ∧ Match "a*b" "a/b" = false
    ∧ Match "a**b" "a/b" = true := by
  refine ⟨fun v => ?_, fun v => ?_, by decide, by decide⟩
  · exact matchInternal_star v.toList
  · exact matchInternal_starstar 2 v.toList

theorem matchesRule_iff (r : Rule) (c : GitHubActionsClaims) :
    matchesRule r c = true ↔
      ((r.conditions.repository = [] ∨ MatchAny r.conditions.repository c.repository = true)
      ∧ (r.conditions.repositoryOwner = [] ∨ MatchAny r.conditions.repositoryOwner c.repositoryOwner = true)
      ∧ (r.conditions.repositoryVisibility = []
          ∨ MatchAny r.conditions.repositoryVisibility c.repositoryVisibility = true)
      ∧ (r.conditions.ref = [] ∨ MatchAny r.conditions.ref c.ref = true)
      ∧ (r.conditions.refType = [] ∨ MatchAny r.conditions.refType c.refType = true)
      ∧ (r.conditions.workflow = [] ∨ MatchAny r.conditions.workflow c.workflow = true)
      ∧ (r.conditions.eventName = [] ∨ MatchAny r.conditions.eventName c.eventName = true)
      ∧ (r.conditions.actor = [] ∨ MatchAny r.conditions.actor c.actor = true)
      ∧ (r.conditions.environment = []
          ∨ (c.environment ≠ ""
              ∧ MatchAny r.conditions.environment c.environment = true))) := by
  unfold matchesRule
  repeat' split
  all_goals simp_all [List.isEmpty_iff]

theorem find?_some_eval {rules : List Rule} {c : GitHubActionsClaims} {r : Rule}
    {dd : Bool} (h : rules.find? (fun r => matchesRule r c) = some r) :
    evalRules rules dd c =
      { allowed := r.effect == "allow", matchedRule := r.name,
        reason := if r.name == "" then "default" else "rule: " ++ r.name } := by
  induction rules with
  | nil => simp at h
  | cons r0 rest ih =>
    by_cases hm : matchesRule r0 c = true
    · rw [List.find?_cons_of_pos (p := fun r => matchesRule r c) _ hm] at h
      cases h
      simp [evalRules, hm]
    · rw [List.find?_cons_of_neg (p := fun r => matchesRule r c) _ (by simpa using hm)] at h
      simpa [evalRules, hm] using ih h

theorem find?_none_eval {rules : List Rule} {c : GitHubActionsClaims} {dd : Bool}
    (h : rules.find? (fun r => matchesRule r c) = none) :
    evalRules rules dd c =
      if dd then { allowed := false, reason := "default deny policy" }
      else { allowed := true, reason := "default allow (no matching rules)" } := by
  induction rules with
  | nil => simp [evalRules]
  | cons r0 rest ih =>
    rw [List.find?_eq_none] at h
    have h0 : matchesRule r0 c = false := by
      simpa using h r0 (List.mem_cons_self r0 rest)
    simp [evalRules, h0]
    exact ih (List.find?_eq_none.mpr fun x hx => h x (List.mem_cons_of_mem _ hx))

/-- C1: a nil policy evaluates to allow with reason "no policy configured";
otherwise the first matching rule in declaration order decides (allowed iff
its effect is "allow", the rule's name reported); with no match the
default-deny flag decides with the documented reasons; an earlier matching
deny rule beats a later matching allow rule. -/
theorem c1_evaluate_first_match (p : Policy) (c : GitHubActionsClaims) :
    Policy.Evaluate none c
        = { allowed := true, matchedRule := "", reason := "no policy configured" }
    ∧ (∀ r, p.rules.find? (fun r => matchesRule r c) = some r →
        (Policy.Evaluate (some p) c).allowed = (r.effect == "allow")
          ∧ (Policy.Evaluate (some p) c).matchedRule = r.name)
    ∧ (p.rules.find? (fun r => matchesRule r c) = none →
        Policy.Evaluate (some p) c =
          if p.defaultDeny then
            { allowed := false, matchedRule := "", reason := "default deny policy" }
          else
            { allowed := true, matchedRule := "", reason := "default allow (no matching rules)" })
    ∧ (∀ d a dd, matchesRule d c = true → matchesRule a c = true →
        d.effect = "deny" →
        (Policy.Evaluate (some ⟨[d, a], dd⟩) c).allowed = false
          ∧ (Policy.Evaluate (some ⟨[d, a], dd⟩) c).matchedRule = d.name) := by
  refine ⟨rfl, fun r h => ?_, fun h => ?_, fun d a dd hd ha hde => ?_⟩
  · rw [show Policy.Evaluate (some p) c = evalRules p.rules p.defaultDeny c from rfl,
      find?_some_eval h]
    exact ⟨rfl, rfl⟩
  · exact find?_none_eval h
  · rw [show Policy.Evaluate (some ⟨[d, a], dd⟩) c = evalRules [d, a] dd c from rfl,
      find?_some_eval (r := d) (by simp [List.find?_cons_of_pos, hd]), hde]
    exact ⟨rfl, rfl⟩

/-- Witness for C1: both rules match `baseClaims`; the earlier deny wins. -/
theorem c1_evaluate_first_match_witness :
    (Policy.Evaluate (some ⟨[c1DenyRule, c1AllowRule], true⟩) baseClaims).allowed = false
    ∧ (Policy.Evaluate (some ⟨[c1DenyRule, c1AllowRule], true⟩) baseClaims).matchedRule
        = "deny-first" :=
  (c1_evaluate_first_match ⟨[c1DenyRule, c1AllowRule], true⟩ baseClaims).2.2.2
    c1DenyRule c1AllowRule true (by decide) (by decide) (by decide)

theorem specRuleMatches_iff (r : Rule) (c : GitHubActionsClaims) :
    specRuleMatches r c = true ↔
      ((r.conditions.repository = [] ∨ MatchAny r.conditions.repository c.repository = true)
      ∧ (r.conditions.repositoryOwner = []
          ∨ MatchAny r.conditions.repositoryOwner c.repositoryOwner = true)
      ∧ (r.conditions.repositoryVisibility = []
          ∨ MatchAny r.conditions.repositoryVisibility c.repositoryVisibility = true)
      ∧ (r.conditions.ref = [] ∨ MatchAny r.conditions.ref c.ref = true)
      ∧ (r.conditions.refType = [] ∨ MatchAny r.conditions.refType c.refType = true)
      ∧ (r.conditions.workflow = [] ∨ MatchAny r.conditions.workflow c.workflow = true)
      ∧ (r.conditions.eventName = [] ∨ MatchAny r.conditions.eventName c.eventName = true)
      ∧ (r.conditions.actor = [] ∨ MatchAny r.conditions.actor c.actor = true)
      ∧ (r.conditions.environment = []
          ∨ MatchAny r.conditions.environment c.environment = true)) := by
  simp only [specRuleMatches, Bool.and_eq_true, Bool.or_eq_true, List.isEmpty_iff,
    and_assoc]

/-- Counterexample to C2 as stated: an active `environment` condition
whose pattern `**` matches the empty claim value, yet the rule does not
match, because `matchesRule` treats an empty environment as non-matching. -/
theorem c2_counterexample :
    specRuleMatches c2EnvRule baseClaims = true
    ∧ matchesRule c2EnvRule baseClaims = false := by decide

/-- C2 amended: a rule matches iff every active condition has a matching
pattern (AND across fields, OR within a list), except that an active
`environment` condition additionally requires the environment claim value
to be non-empty. -/
theorem c2_amended_and_or_semantics (r : Rule) (c : GitHubActionsClaims) :
    matchesRule r c = true ↔
      (specRuleMatches r c = true
        ∧ (r.conditions.environment = [] ∨ c.environment ≠ "")) := by
  have henv : (r.conditions.environment = []
        ∨ (c.environment ≠ "" ∧ MatchAny r.conditions.environment c.environment = true)) ↔
      ((r.conditions.environment = [] ∨ MatchAny r.conditions.environment c.environment = true)
        ∧ (r.conditions.environment = [] ∨ c.environment ≠ "")) := by
    tauto
  rw [matchesRule_iff, specRuleMatches_iff, henv]
  simp only [and_assoc]

/-- Counterexample to C3 as stated: a rule with an active condition on the
structurally optional attribute `ref_type` matches claims whose `ref_type`
is empty (`*` matches the empty string), so only `environment` — not
`ref_type` or `repository_visibility` — gets the empty-value guard. -/
theorem c3_counterexample :
    GitHubActionsClaims.Validate c3Claims = none
    ∧ c3RefTypeRule.conditions.refType ≠ []
    ∧ c3Claims.refType = ""
    ∧ matchesRule c3RefTypeRule c3Claims = true := by decide

/-- C3 amended: the empty-value guard exists exactly for `environment`: a
rule with an active environment condition never matches claims whose
environment is empty, regardless of the pattern list. -/
theorem c3_amended_env_guard (r : Rule) (c : GitHubActionsClaims)
    (hact : r.conditions.environment ≠ []) (hemp : c.environment = "") :
    matchesRule r c = false := by
  cases h : matchesRule r c with
  | false => rfl
  | true =>
    rcases (matchesRule_iff r c).mp h with ⟨-, -, -, -, -, -, -, -, henv⟩
    rcases henv with h1 | ⟨h2, -⟩
    · exact (hact h1).elim
    · exact (h2 hemp).elim

/-- Witness for the amended C3 at a concrete rule and claim set. -/
theorem c3_amended_env_guard_witness :
    c2EnvRule.conditions.environment ≠ [] ∧ baseClaims.environment = ""
    ∧ matchesRule c2EnvRule baseClaims = false :=
  ⟨by decide, rfl, c3_amended_env_guard c2EnvRule baseClaims (by decide) rfl⟩

/-- Counterexample to C9 as stated: when the matched rule's name is empty
the reason is "default", not "rule: " followed by the name. -/
theorem c9_counterexample :
    matchesRule c9UnnamedRule baseClaims = true
    ∧ (Policy.Evaluate (some ⟨[c9UnnamedRule], true⟩) baseClaims).matchedRule = ""
    ∧ (Policy.Evaluate (some ⟨[c9UnnamedRule], true⟩) baseClaims).reason = "default"
    ∧ (Policy.Evaluate (some ⟨[c9UnnamedRule], true⟩) baseClaims).reason
        ≠ "rule: "
          ++ (Policy.Evaluate (some ⟨[c9UnnamedRule], true⟩) baseClaims).matchedRule := by
  decide

/-- C9 amended: when a rule matches, the result carries that rule's name
in `MatchedRule`; the reason is "rule: " followed by the name when the
name is non-empty, and "default" when the name is empty. -/
theorem c9_amended_matched_reason (p : Policy) (c : GitHubActionsClaims) (r : Rule)
    (h : p.rules.find? (fun r => matchesRule r c) = some r) :
    (Policy.Evaluate (some p) c).matchedRule = r.name
    ∧ (Policy.Evaluate (some p) c).reason
        = (if r.name = "" then "default" else "rule: " ++ r.name) := by
  rw [show Policy.Evaluate (some p) c = evalRules p.rules p.defaultDeny c from rfl,
    find?_some_eval h]
  constructor
  · rfl
  · by_cases hn : r.name = "" <;> simp [hn]

/-- Witness for the amended C9: the named deny rule is found first. -/
theorem c9_amended_matched_reason_witness :
    (Policy.Evaluate (some ⟨[c1DenyRule, c1AllowRule], false⟩) baseClaims).matchedRule
        = "deny-first"
    ∧ (Policy.Evaluate (some ⟨[c1DenyRule, c1AllowRule], false⟩) baseClaims).reason
        = "rule: deny-first" := by
  have h := c9_amended_matched_reason ⟨[c1DenyRule, c1AllowRule], false⟩ baseClaims
    c1DenyRule (by decide)
  simpa using h

theorem validateRules_eq_none (rules : List Rule)
    (h : ∀ r ∈ rules, (r.effect = "allow" ∨ r.effect = "deny") ∧ allCondsEmpty r = false) :
    ∀ i, validateRules i rules = none := by
  induction rules with
  | nil => intro i; rfl
  | cons r0 rest ih =>
    intro i
    obtain ⟨heff, hcond⟩ := h r0 (List.mem_cons_self r0 rest)
    have h1 : (r0.effect != "allow" && r0.effect != "deny") = false := by
      rcases heff with he | he <;> simp [he]
    have h2 := hcond
    simp only [allCondsEmpty, Bool.and_eq_false_iff] at h2
    rw [validateRules, if_neg (by simp [h1]), if_neg (by simp [allCondsEmpty] at h2 ⊢; tauto)]
    exact ih (fun r hr => h r (List.mem_cons_of_mem _ hr)) (i + 1)

theorem validateRules_isSome (rules : List Rule) (r : Rule) (hr : r ∈ rules)
    (hbad : (r.effect ≠ "allow" ∧ r.effect ≠ "deny") ∨ allCondsEmpty r = true) :
    ∀ i, (validateRules i rules).isSome = true := by
  induction rules with
  | nil => cases hr
  | cons r0 rest ih =>
    intro i
    rw [validateRules]
    split
    · rfl
    · split
      · rfl
      · rcases List.mem_cons.mp hr with rfl | hmem
        · rename_i hg1 hg2
          rcases hbad with ⟨ha, hd⟩ | hc
          · exact absurd (by simp [ha, hd]) hg1
          · refine absurd ?_ hg2
            simp only [allCondsEmpty, Bool.and_eq_true] at hc
            simp [hc]
        · exact ih hmem (i + 1)

/-- C8: `Validate` accepts a nil policy and any non-empty rule list whose
rules all have effect "allow" or "deny" and at least one active condition;
it rejects an empty rule list, any rule with an effect outside
{allow, deny}, and any rule with zero active conditions. -/
theorem c8_validate (p : Policy) :
    Policy.Validate none = none
    ∧ (p.rules ≠ [] →
        (∀ r ∈ p.rules, (r.effect = "allow" ∨ r.effect = "deny") ∧ allCondsEmpty r = false) →
        Policy.Validate (some p) = none)
    ∧ (p.rules = [] → (Policy.Validate (some p)).isSome = true)
    ∧ (∀ r ∈ p.rules, (r.effect ≠ "allow" ∧ r.effect ≠ "deny") →
        (Policy.Validate (some p)).isSome = true)
    ∧ (∀ r ∈ p.rules, allCondsEmpty r = true →
        (Policy.Validate (some p)).isSome = true) := by
  have hsome : ∀ q : Option Policy, q = some p → p.rules ≠ [] →
      Policy.Validate (some p) = validateRules 0 p.rules := by
    intro q _ hne
    rw [Policy.Validate, if_neg (by simpa using hne)]
  refine ⟨rfl, fun hne h => ?_, fun he => ?_, fun r hr hb => ?_, fun r hr hc => ?_⟩
  · rw [hsome (some p) rfl hne]
    exact validateRules_eq_none p.rules h 0
  · rw [Policy.Validate, if_pos (by simpa using he)]
    rfl
  · have hne : p.rules ≠ [] := by rintro hnil; rw [hnil] at hr; cases hr
    rw [hsome (some p) rfl hne]
    exact validateRules_isSome p.rules r hr (Or.inl hb) 0
  · have hne : p.rules ≠ [] := by rintro hnil; rw [hnil] at hr; cases hr
    rw [hsome (some p) rfl hne]
    exact validateRules_isSome p.rules r hr (Or.inr hc) 0

/-- Witness for C8: a valid one-rule policy passes, an empty rule list and
a bad-effect rule fail. -/
theorem c8_validate_witness :
    Policy.Validate (some ⟨[c8ValidRule], true⟩) = none
    ∧ (Policy.Validate (some ⟨[], true⟩)).isSome = true
    ∧ (Policy.Validate (some ⟨[c8BadEffectRule], false⟩)).isSome = true :=
  ⟨(c8_validate ⟨[c8ValidRule], true⟩).2.1 (by decide) (by decide),
   (c8_validate ⟨[], true⟩).2.2.1 rfl,
   (c8_validate ⟨[c8BadEffectRule], false⟩).2.2.2.1 c8BadEffectRule (by decide) (by decide)⟩

theorem getKeyMiss_count (f : JWKSFetcher) (now : Nat) (o : FetchOutcome) (kid : String) :
    (getKeyMiss f now o kid).2.2 = 1 := by
  unfold getKeyMiss
  rcases refresh f now o with ⟨_ | e, f'⟩
  · cases hc : f'.cache kid <;> simp [hc]
  · simp

theorem getKey_miss_eq (f : JWKSFetcher) (now : Nat) (o : FetchOutcome) (kid : String)
    (h : f.cache kid = none ∨ ¬ now - f.cachedAt < f.cacheDuration) :
    GetKey f now o kid = getKeyMiss f now o kid := by
  rcases h with hn | hs
  · simp [GetKey, hn]
  · cases hc : f.cache kid with
    | none => simp [GetKey, hc]
    | some k => simp [GetKey, hc, hs]

/-- C4: a fresh cache hit returns the cached key with no fetch; a miss
(absent kid or stale cache) performs exactly one refresh fetch; if the kid
is still absent after a successful refresh the call fails with the
`ErrKeyNotFound` category, terminally (still exactly one fetch). -/
theorem c4_getkey_protocol (f : JWKSFetcher) (now : Nat) (o : FetchOutcome) (kid : String) :
    (∀ k, f.cache kid = some k → now - f.cachedAt < f.cacheDuration →
        GetKey f now o kid = (.ok k, f, 0))
    ∧ ((f.cache kid = none ∨ ¬ now - f.cachedAt < f.cacheDuration) →
        (GetKey f now o kid).2.2 = 1)
    ∧ (∀ jwks, (f.cache kid = none ∨ ¬ now - f.cachedAt < f.cacheDuration) →
        o = .response 200 (.ok jwks) → buildCache jwks.keys kid = none →
        GetKey f now o kid
          = (.error ⟨.keyNotFound, "key ID \"" ++ kid ++ "\" not found in JWKS"⟩,
             { f with cache := buildCache jwks.keys, cachedAt := now }, 1)) := by
  refine ⟨fun k hk hf => ?_, fun h => ?_, fun jwks h ho hnone => ?_⟩
  · simp [GetKey, hk, hf]
  · rw [getKey_miss_eq f now o kid h]
    exact getKeyMiss_count f now o kid
  · subst ho
    rw [getKey_miss_eq _ _ _ _ h]
    unfold getKeyMiss
    simp [refresh, hnone]

/-- Witness for C4: a fresh hit without a fetch, a miss with one fetch,
and a key-not-found result after a successful refresh of an empty set. -/
theorem c4_getkey_protocol_witness :
    GetKey c4Fetcher 200 (.doError "unused") "key-1" = (.ok c4Key, c4Fetcher, 0)
    ∧ (GetKey c4Fetcher 200 (.response 200 (.ok ⟨[]⟩)) "absent").2.2 = 1
    ∧ GetKey c4Fetcher 5000 (.response 200 (.ok ⟨[]⟩)) "key-1"
        = (.error ⟨.keyNotFound, "key ID \"" ++ "key-1" ++ "\" not found in JWKS"⟩,
           { c4Fetcher with cache := buildCache (JWKS.mk []).keys, cachedAt := 5000 }, 1) :=
  ⟨(c4_getkey_protocol c4Fetcher 200 (.doError "unused") "key-1").1 c4Key rfl (by decide),
   (c4_getkey_protocol c4Fetcher 200 (.response 200 (.ok ⟨[]⟩)) "absent").2.1 (.inl rfl),
   (c4_getkey_protocol c4Fetcher 5000 (.response 200 (.ok ⟨[]⟩)) "key-1").2.2 ⟨[]⟩
     (.inr (by decide)) rfl rfl⟩

/-- Counterexample to C5 as stated: "kid-1" sits in the (stale) cache, the
refresh fails, and `GetKey` returns the fetch error — it does not return
the stale key. -/
theorem c5_counterexample :
    c5Fetcher.cache "kid-1" = some ⟨101, 3⟩
    ∧ ¬ (10 : Nat) - c5Fetcher.cachedAt < c5Fetcher.cacheDuration
    ∧ GetKey c5Fetcher 10 (.doError "connection refused") "kid-1"
        = (.error ⟨.jwksFetch, "connection refused"⟩, c5Fetcher, 1)
    ∧ (GetKey c5Fetcher 10 (.doError "connection refused") "kid-1").1
        ≠ .ok ⟨101, 3⟩ := by
  refine ⟨rfl, by decide, rfl, ?_⟩
  rw [show (GetKey c5Fetcher 10 (.doError "connection refused") "kid-1").1
      = Except.error ⟨.jwksFetch, "connection refused"⟩ from rfl]
  simp

/-- C5 amended: every refresh failure (request error, transport error,
non-200 status, malformed body) leaves the cached set and its timestamp
untouched and surfaces `ErrJWKSFetch`; a `GetKey` call that hits the
failure on a stale cache returns the fetch error while the stale entry
stays cached for later calls. -/
theorem c5_amended_refresh_failure (f : JWKSFetcher) (now : Nat) (o : FetchOutcome)
    (h : o.failed = true) :
    (∃ msg, refresh f now o = (some ⟨.jwksFetch, msg⟩, f))
    ∧ (∀ kid k, f.cache kid = some k → ¬ now - f.cachedAt < f.cacheDuration →
        ∃ msg, GetKey f now o kid = (.error ⟨.jwksFetch, msg⟩, f, 1)) := by
  have h1 : ∃ msg, refresh f now o = (some ⟨.jwksFetch, msg⟩, f) := by
    cases o with
    | reqError m => exact ⟨m, rfl⟩
    | doError m => exact ⟨m, rfl⟩
    | response status body =>
      by_cases hst : status = 200
      · subst hst
        cases body with
        | error m => exact ⟨m, rfl⟩
        | ok jwks => simp [FetchOutcome.failed] at h
      · exact ⟨"HTTP " ++ toString status, by simp [refresh, hst]⟩
  refine ⟨h1, fun kid k hk hs => ?_⟩
  obtain ⟨m, hm⟩ := h1
  refine ⟨m, ?_⟩
  rw [getKey_miss_eq _ _ _ _ (.inr hs)]
  unfold getKeyMiss
  rw [hm]

/-- Witness for the amended C5 at a concrete stale cache and transport
failure. -/
theorem c5_amended_refresh_failure_witness :
    (∃ msg, refresh c5Fetcher 10 (.doError "boom") = (some ⟨.jwksFetch, msg⟩, c5Fetcher))
    ∧ ∃ msg, GetKey c5Fetcher 10 (.doError "boom") "kid-1"
        = (.error ⟨.jwksFetch, msg⟩, c5Fetcher, 1) :=
  ⟨(c5_amended_refresh_failure c5Fetcher 10 (.doError "boom") rfl).1,
   (c5_amended_refresh_failure c5Fetcher 10 (.doError "boom") rfl).2 "kid-1" ⟨101, 3⟩
     rfl (by decide)⟩

/-- C6: a token whose signing method is not RSA is rejected with the
invalid-signature category before key resolution: the state is unchanged,
no fetch happens, and the `kid` header is never consulted. -/
theorem c6_keyfunc_rejects_non_rsa (f : JWKSFetcher) (now : Nat) (o : FetchOutcome)
    (t : Token) (h : t.methodIsRSA = false) :
    Keyfunc f now o t
      = (.error ⟨.invalidSignature, "unexpected signing method: " ++ t.alg⟩, f, 0) := by
  simp [Keyfunc, h]

/-- Witness for C6: an HS256 token is rejected without a fetch. -/
theorem c6_keyfunc_rejects_non_rsa_witness :
    Keyfunc c6Fetcher 0 (.response 200 (.ok ⟨[]⟩)) ⟨false, "HS256", some "key-1"⟩
      = (.error ⟨.invalidSignature, "unexpected signing method: " ++ "HS256"⟩,
         c6Fetcher, 0) :=
  c6_keyfunc_rejects_non_rsa c6Fetcher 0 (.response 200 (.ok ⟨[]⟩))
    ⟨false, "HS256", some "key-1"⟩ rfl

theorem foldl_cacheStep (keys : List JWK) (m : String → Option PublicKey) (kid : String) :
    (keys.foldl cacheStep m) kid
      = match keys.reverse.find? (fun j => decide (j.kid = kid) && (rsaKeyOf j).isSome) with
        | some j => rsaKeyOf j
        | none => m kid := by
  induction keys generalizing m with
  | nil => rfl
  | cons j rest ih =>
    rw [List.foldl_cons, ih (cacheStep m j), List.reverse_cons, List.find?_append]
    cases hf : rest.reverse.find? (fun j => decide (j.kid = kid) && (rsaKeyOf j).isSome) with
    | some j' => simp [hf]
    | none =>
      simp only [hf, Option.none_or]
      by_cases hkty : j.kty = "RSA"
      · cases hp : jwkToPublicKey j with
        | none => simp [List.find?, cacheStep, rsaKeyOf, hkty, hp]
        | some key =>
          by_cases hk : j.kid = kid
          · subst hk
            simp [List.find?, cacheStep, rsaKeyOf, hkty, hp]
          · have hk2 : ¬ kid = j.kid := fun h => hk h.symm
            simp [List.find?, cacheStep, rsaKeyOf, hkty, hp, hk, hk2]
      · simp [List.find?, cacheStep, rsaKeyOf, hkty]

/-- C10: a successful refresh replaces the cache with exactly the RSA
entries of the fetched set that decode from raw base64url, keyed by kid
with a later duplicate overwriting an earlier one; every cached key's
modulus is the big-endian integer of its decoded `n`; degenerate keys
(empty `n`/`e`, giving modulus 0 and exponent 0) are accepted. -/
theorem c10_refresh_cache_content (f : JWKSFetcher) (now : Nat) (jwks : JWKS) (kid : String) :
    refresh f now (.response 200 (.ok jwks))
        = (none, { f with cache := buildCache jwks.keys, cachedAt := now })
    ∧ buildCache jwks.keys kid
        = (match jwks.keys.reverse.find?
              (fun j => decide (j.kid = kid) && (rsaKeyOf j).isSome) with
           | some j => rsaKeyOf j
           | none => none)
    ∧ (∀ pk, buildCache jwks.keys kid = some pk →
        ∃ j ∈ jwks.keys, j.kid = kid ∧ j.kty = "RSA"
          ∧ ∃ nB eB, b64urlDecode j.n.toList = some nB
              ∧ b64urlDecode j.e.toList = some eB
              ∧ pk.n = bytesToNat nB ∧ pk.e = (bytesToNat eB : Int))
    ∧ buildCache [⟨"deg", "RSA", "", "", "", ""⟩] "deg" = some ⟨0, 0⟩ := by
  refine ⟨rfl, foldl_cacheStep jwks.keys (fun _ => none) kid, fun pk hpk => ?_, by decide⟩
  rw [show buildCache jwks.keys kid = (jwks.keys.foldl cacheStep (fun _ => none)) kid from rfl] at hpk
  rw [foldl_cacheStep] at hpk
  cases hf : jwks.keys.reverse.find? (fun j => decide (j.kid = kid) && (rsaKeyOf j).isSome) with
  | none => rw [hf] at hpk; cases hpk
  | some j =>
    rw [hf] at hpk
    have hmem : j ∈ jwks.keys := List.mem_reverse.mp (List.mem_of_find?_eq_some hf)
    have hpred := List.find?_some hf
    simp only [Bool.and_eq_true, decide_eq_true_eq] at hpred
    obtain ⟨hkid, -⟩ := hpred
    have hkty : j.kty = "RSA" := by
      by_contra hne
      simp only [rsaKeyOf, if_neg hne] at hpk
      cases hpk
    simp only [rsaKeyOf, if_pos hkty] at hpk
    cases hn : b64urlDecode j.n.toList with
    | none => rw [jwkToPublicKey, hn] at hpk; cases hpk
    | some nB =>
      cases he : b64urlDecode j.e.toList with
      | none => rw [jwkToPublicKey, hn, he] at hpk; cases hpk
      | some eB =>
        rw [jwkToPublicKey, hn, he] at hpk
        have hpk2 : pk = { n := bytesToNat nB, e := (bytesToNat eB : Int) } :=
          (Option.some.inj hpk).symm
        subst hpk2
        exact ⟨j, hmem, hkid, hkty, nB, eB, hn, he, rfl, rfl⟩

/-- Witness for C10: the degenerate single-entry set is cached and its
provenance is recovered. -/
theorem c10_refresh_cache_content_witness :
    ∃ j ∈ [(⟨"deg", "RSA", "", "", "", ""⟩ : JWK)], j.kid = "deg" ∧ j.kty = "RSA"
      ∧ ∃ nB eB, b64urlDecode j.n.toList = some nB
          ∧ b64urlDecode j.e.toList = some eB
          ∧ (0 : Nat) = bytesToNat nB ∧ (0 : Int) = (bytesToNat eB : Int) :=
  (c10_refresh_cache_content ⟨3600, fun _ => none, 0⟩ 0 ⟨[⟨"deg", "RSA", "", "", "", ""⟩]⟩
    "deg").2.2.1 ⟨0, 0⟩ (by decide)

end GhaAuth
